import Mathlib

/-!
Verification development for the vexyl repository.

This file gives a shallow embedding of the program logic that the
specification talks about:

* `src/app/actions/wallet.ts` — `mergeTransactions`, `fetchWalletHistory`,
  `getTimeline` (multi-wallet merge/dedup and cursor pagination);
* `src/app/actions/rpc.ts` — the server actions `getRecentBlockhash`,
  `simulateTransaction`, `sendTransaction`, and `getAccountInfo` from
  `wallet.ts` (per-request try/catch returning `{success, error}` objects);
* `src/store/wallet.ts` — the zustand wallet store actions;
* `src/hooks/useCloseAccounts.ts` — the dust-account closing pipeline
  (instruction building, per-token simulation, batching by 5, sequential
  signing/submission).

External effects (network calls, the wallet adapter) are modelled as
oracle parameters; thrown JavaScript values are modelled by the `Thrown`
type; JavaScript truthiness of `string | null | undefined` values
(`x || y`) is modelled by the `jsOr` helpers, for which the empty string
counts as falsy.
-/

/-- A thrown JavaScript value as the catch blocks of this codebase see it:
either an `Error` object carrying a message string, or any non-`Error`
value (the code only ever looks at `error instanceof Error` and
`error.message`). -/
inductive Thrown where
  | errObj (msg : String)
  | nonError
deriving DecidableEq

/-- `error instanceof Error ? error.message : fallback` — the uniform
catch-handler pattern of the codebase. -/
def thrownMessage (fallback : String) : Thrown → String
  | .errObj m => m
  | .nonError => fallback

/-- JavaScript `x || dflt` for `x : string | null | undefined`:
`null`, `undefined` and `""` are falsy. -/
def jsOr (x : Option String) (dflt : String) : String :=
  match x with
  | some s => if s = "" then dflt else s
  | none => dflt

/-- JavaScript `x || null` for `x : string | undefined`:
an empty string collapses to `null`. -/
def jsOrNull (x : Option String) : Option String :=
  match x with
  | some s => if s = "" then none else some s
  | none => none

/-! ## Data model: wallets and transactions (`src/types`, `src/app/actions/wallet.ts`) -/

/-- A wallet entry as stored by the zustand store and passed to
`getTimeline` (`Wallet` in `src/types`). -/
structure Wallet where
  address : String
  label : String
  color : String
deriving DecidableEq

/-- `HeliusEnhancedTransaction` (`src/app/actions/wallet.ts`), restricted to
the scalar fields; the `nativeTransfers`/`tokenTransfers`/`events` payloads
are copied verbatim by the code and are irrelevant to every claim, so they
are not modelled. -/
structure HeliusTx where
  signature : String
  type : String
  source : String
  description : String
  fee : Int
  feePayer : String
  slot : Int
  timestamp : Int
deriving DecidableEq

/-- `ParsedTransaction` (`src/types`), restricted to the same scalar fields
plus the merge-added fields `isSelfTransfer`, `walletLabel`, `walletColor`. -/
structure ParsedTransaction where
  signature : String
  type : String
  source : String
  description : String
  fee : Int
  feePayer : String
  slot : Int
  timestamp : Int
  blockTime : Int
  isSelfTransfer : Bool
  walletLabel : String
  walletColor : String
deriving DecidableEq

/-- The `ParsedTransaction` record built by `mergeTransactions` when a
signature is first seen (wallet.ts lines 255-279).  `tx.type || 'UNKNOWN'`
and `tx.source || 'UNKNOWN'` default the empty string; on the integer
fields `x || 0` is the identity except at `0`, where it is also the
identity, so those are copied directly. -/
def toParsed (w : Wallet) (tx : HeliusTx) : ParsedTransaction :=
  { signature := tx.signature
    type := if tx.type = "" then "UNKNOWN" else tx.type
    source := if tx.source = "" then "UNKNOWN" else tx.source
    description := tx.description
    fee := tx.fee
    feePayer := tx.feePayer
    slot := tx.slot
    timestamp := tx.timestamp
    blockTime := tx.timestamp
    isSelfTransfer := false
    walletLabel := w.label
    walletColor := w.color }

/-- One iteration of the inner loop of `mergeTransactions`: the `Map` keyed
by signature is modelled as a list in insertion order; `Map.get` hit sets
`isSelfTransfer` on the stored record, miss appends the converted record. -/
def upsertTx (acc : List ParsedTransaction) (w : Wallet) (tx : HeliusTx) :
    List ParsedTransaction :=
  if acc.any (fun p => p.signature = tx.signature) then
    acc.map (fun p =>
      if p.signature = tx.signature then { p with isSelfTransfer := true } else p)
  else
    acc ++ [toParsed w tx]

/-- The two nested `for` loops of `mergeTransactions` building the
signature map (wallet.ts lines 244-284). -/
def mergeMap (results : List (Wallet × List HeliusTx)) : List ParsedTransaction :=
  results.foldl (fun acc r => r.2.foldl (fun acc2 tx => upsertTx acc2 r.1 tx) acc) []

/-- `mergeTransactions` (wallet.ts lines 241-288): build the signature map,
then `.sort((a, b) => b.timestamp - a.timestamp)` — a stable sort,
descending by timestamp. -/
def mergeTransactions (results : List (Wallet × List HeliusTx)) :
    List ParsedTransaction :=
  (mergeMap results).mergeSort (fun a b => b.timestamp ≤ a.timestamp)

/-- All signatures occurring in the input of `mergeTransactions`, with
multiplicity, in traversal order (a spec-side measure of the input). -/
def mergeSignatures (results : List (Wallet × List HeliusTx)) : List String :=
  results.flatMap (fun r => r.2.map (fun tx => tx.signature))

/-! ## `fetchWalletHistory` and `getTimeline` (`src/app/actions/wallet.ts`) -/

/-- `TimelineResponse` (`src/types`). -/
structure TimelineResponse where
  success : Bool
  data : Option (List ParsedTransaction)
  nextCursor : Option String
  error : Option String
deriving DecidableEq

/-- The outcome of `fetchParsedTransactions` (including `ensurePubkey`
domain resolution) for one wallet, supplied by the network:
arguments are address, limit, and the `before` cursor. -/
def FetchOracle : Type := String → Nat → Option String → Except Thrown (List HeliusTx)

/-- `fetchWalletHistory` (wallet.ts lines 213-236): any failure is caught
and an empty list returned. -/
def fetchWalletHistory (fetch : FetchOracle) (address : String) (limit : Nat)
    (before : Option String) : List HeliusTx :=
  match fetch address limit before with
  | .ok txs => txs
  | .error _ => []

/-- The per-wallet limit of `getTimeline`:
`Math.ceil(limit / wallets.length) + 10` (wallet.ts line 309).  For
`n = 0` the expression is never used (the wallet map is empty). -/
def perWalletLimit (limit n : Nat) : Nat :=
  (limit + n - 1) / n + 10

/-- The `results` array of `getTimeline` (wallet.ts lines 305-313): every
wallet's history, each fetched with the caller's cursor as `before`. -/
def timelineResults (fetch : FetchOracle) (wallets : List Wallet) (limit : Nat)
    (cursor : Option String) : List (Wallet × List HeliusTx) :=
  wallets.map (fun w =>
    (w, fetchWalletHistory fetch w.address (perWalletLimit limit wallets.length) cursor))

/-- `getTimeline` (wallet.ts lines 294-336): fetch every wallet's history
with the caller's cursor as `before`, merge and deduplicate, trim to
`limit`, and take the last returned signature as `nextCursor`.  The `try`
body only calls the non-throwing `fetchWalletHistory` and pure list code,
so the catch branch is unreachable in the model. -/
def getTimeline (fetch : FetchOracle) (wallets : List Wallet) (limit : Nat)
    (cursor : Option String) : TimelineResponse :=
  let merged := mergeTransactions (timelineResults fetch wallets limit cursor)
  let trimmed := merged.take limit
  { success := true
    data := some trimmed
    nextCursor := (trimmed.getLast?).map (fun p => p.signature)
    error := none }

/-! ## The wallet store (`src/store/wallet.ts`) -/

/-- The predefined wallet badge colors (store/wallet.ts lines 6-15). -/
def WALLET_COLORS : List String :=
  ["#14F195", "#9945FF", "#00D1FF", "#FF6B6B", "#FFE66D", "#4ECDC4", "#FF8C42", "#A8E6CF"]

/-- The persisted part of the store state plus `isWarpComplete`, the only
UI field the wallet actions touch. -/
structure WalletState where
  wallets : List Wallet
  primaryWallet : Option String
  isWarpComplete : Bool
deriving DecidableEq

/-- `addWallet` (store/wallet.ts lines 62-81).  `label || ...` and
`state.primaryWallet || address` follow JavaScript truthiness (`jsOr`). -/
def addWallet (s : WalletState) (address : String) (label : Option String) :
    WalletState :=
  if s.wallets.any (fun w => w.address = address) then s
  else
    let colorIndex := s.wallets.length % WALLET_COLORS.length
    let newWallet : Wallet :=
      { address := address
        label := jsOr label ("Wallet " ++ toString (s.wallets.length + 1))
        color := WALLET_COLORS.getD colorIndex "" }
    { s with
      wallets := s.wallets ++ [newWallet]
      primaryWallet := some (jsOr s.primaryWallet address) }

/-- `removeWallet` (store/wallet.ts lines 83-96).
`newWallets[0]?.address || null` is `jsOrNull` of the head's address. -/
def removeWallet (s : WalletState) (address : String) : WalletState :=
  let newWallets := s.wallets.filter (fun w => w.address ≠ address)
  let newPrimary :=
    if s.primaryWallet = some address then
      jsOrNull ((newWallets.head?).map (fun w => w.address))
    else s.primaryWallet
  { wallets := newWallets
    primaryWallet := newPrimary
    isWarpComplete := if newWallets.length > 0 then s.isWarpComplete else false }

/-- `updateWalletLabel` (store/wallet.ts lines 98-102). -/
def updateWalletLabel (s : WalletState) (address label : String) : WalletState :=
  { s with
    wallets := s.wallets.map (fun w =>
      if w.address = address then { w with label := label } else w) }

/-- `setPrimaryWallet` (store/wallet.ts lines 104-106). -/
def setPrimaryWallet (s : WalletState) (address : String) : WalletState :=
  { s with primaryWallet := some address }

/-- `clearWallets` (store/wallet.ts lines 108-114). -/
def clearWallets (s : WalletState) : WalletState :=
  { wallets := [], primaryWallet := none, isWarpComplete := false }

/-- The store invariant: `primaryWallet` is `null` or the address of some
stored wallet. -/
def PrimaryInv (s : WalletState) : Prop :=
  s.primaryWallet = none ∨ ∃ w, w ∈ s.wallets ∧ s.primaryWallet = some w.address

instance (s : WalletState) : Decidable (PrimaryInv s) := by
  unfold PrimaryInv
  exact inferInstance

/-! ## SPL token constants and instruction building (`src/hooks/useCloseAccounts.ts`) -/

/-- `TOKEN_PROGRAM_ID` from `@solana/spl-token`, as a base58 string. -/
def TOKEN_PROGRAM_ID : String := "TokenkegQfeZyiNwAJbNbGKPFXCWuBvf9Ss623VQ5DA"

/-- `TOKEN_2022_PROGRAM_ID` from `@solana/spl-token`, as a base58 string;
this is the literal the hook compares `token.tokenProgram` against
(useCloseAccounts.ts line 76). -/
def TOKEN_2022_PROGRAM_ID : String := "TokenzQdBNbLqP5VEhdkAS6EPFLC1PHnBqCXEpPxuEb"

/-- `TokenToClose` (useCloseAccounts.ts lines 19-23); `balance` is the raw
integer token balance. -/
structure TokenToClose where
  mint : String
  tokenProgram : Option String
  balance : Option Int
deriving DecidableEq

/-- The two SPL instructions the hook builds
(`createBurnInstruction` / `createCloseAccountInstruction`). -/
inductive Ix where
  | burn (account mint owner : String) (amount : Int) (programId : String)
  | closeAccount (account dest authority : String) (programId : String)
deriving DecidableEq

/-- Abstract model of the external `getAssociatedTokenAddressSync` from
`@solana/spl-token`: the derived address is opaque to this repository, so
it is modelled as an injective tag of its arguments. -/
def getAssociatedTokenAddressSync (mint owner : String)
    (allowOwnerOffCurve : Bool) (programId : String) : String :=
  String.intercalate "/" ["ata", mint, owner, programId]

/-- The per-token instruction list built by `closeAccounts`
(useCloseAccounts.ts lines 73-106): a burn of the raw balance when
`token.balance && token.balance > 0` (so only when the balance is present
and strictly positive — `0` is falsy), always followed by a close of the
associated token account. -/
def buildIxs (owner : String) (t : TokenToClose) : List Ix :=
  let isToken2022 := t.tokenProgram = some TOKEN_2022_PROGRAM_ID
  let programId := if isToken2022 then TOKEN_2022_PROGRAM_ID else TOKEN_PROGRAM_ID
  let tokenAccount := getAssociatedTokenAddressSync t.mint owner false programId
  let burnPart : List Ix :=
    match t.balance with
    | some b => if 0 < b then [Ix.burn tokenAccount t.mint owner b programId] else []
    | none => []
  burnPart ++ [Ix.closeAccount tokenAccount owner owner programId]

/-- A legacy `Transaction` as the hook assembles it: recent blockhash, fee
payer, instruction list (signatures are not modelled; the signed
transaction is represented by the same record). -/
structure Tx where
  recentBlockhash : String
  feePayer : String
  instructions : List Ix
deriving DecidableEq

/-! ## The rpc server actions (`src/app/actions/rpc.ts`) -/

/-- `getLatestBlockhash` payload. -/
structure BhData where
  blockhash : String
  lastValidBlockHeight : Nat
deriving DecidableEq

/-- Result object of the `getRecentBlockhash` server action. -/
structure BhRes where
  success : Bool
  data : Option BhData
  error : Option String
deriving DecidableEq

/-- Result object of the `simulateTransaction` server action. -/
structure SimRes where
  success : Bool
  error : Option String
deriving DecidableEq

/-- Result object of the `sendTransaction` server action. -/
structure SendRes where
  success : Bool
  signature : Option String
  error : Option String
deriving DecidableEq

/-- `getRecentBlockhash` (rpc.ts lines 11-37): wrap the RPC outcome, catch
any throw into `{success: false, error}`. -/
def getRecentBlockhash (latest : Except Thrown BhData) : BhRes :=
  match latest with
  | .ok d => { success := true, data := some d, error := none }
  | .error e =>
    { success := false, data := none
      error := some (thrownMessage "Failed to get blockhash" e) }

/-- `simulateTransaction` (rpc.ts lines 43-81).  The oracles are the
deserialization of the incoming base64 payload, the fresh blockhash, and
the RPC simulation itself, whose `ok (some s)` case stands for a non-null
`result.value.err` already rendered by `JSON.stringify` (`compileMessage`
failures are absorbed into the simulation oracle's thrown case). -/
def simulateTransaction (deserialize : Except Thrown Tx)
    (latest : Except Thrown BhData)
    (simulate : Tx → Except Thrown (Option String)) : SimRes :=
  match deserialize with
  | .error e => { success := false, error := some (thrownMessage "Simulation failed" e) }
  | .ok tx =>
    match latest with
    | .error e => { success := false, error := some (thrownMessage "Simulation failed" e) }
    | .ok d =>
      match simulate { tx with recentBlockhash := d.blockhash } with
      | .error e => { success := false, error := some (thrownMessage "Simulation failed" e) }
      | .ok (some errJson) => { success := false, error := some errJson }
      | .ok none => { success := true, error := none }

/-- `sendTransaction` (rpc.ts lines 138-174): send the raw transaction,
fetch a blockhash, await confirmation; any throw is caught into
`{success: false, error}`. -/
def sendTransaction (sendRaw : Except Thrown String)
    (latest : Except Thrown BhData) (confirm : Except Thrown Unit) : SendRes :=
  match sendRaw with
  | .error e =>
    { success := false, signature := none
      error := some (thrownMessage "Failed to send transaction" e) }
  | .ok sig =>
    match latest with
    | .error e =>
      { success := false, signature := none
        error := some (thrownMessage "Failed to send transaction" e) }
    | .ok _ =>
      match confirm with
      | .error e =>
        { success := false, signature := none
          error := some (thrownMessage "Failed to send transaction" e) }
      | .ok _ => { success := true, signature := some sig, error := none }

/-- The on-chain account payload `getAccountInfo` reads
(`solBalance = lamports / 1e9`, a derived float, is not modelled). -/
structure AccountData where
  lamports : Nat
  owner : String
deriving DecidableEq

/-- Result object of the `getAccountInfo` server action
(`src/app/actions/wallet.ts` lines 145-174). -/
structure AccountInfoRes where
  success : Bool
  data : Option AccountData
  error : Option String
deriving DecidableEq

/-- `getAccountInfo` (wallet.ts lines 145-174): the oracle's `ok none`
case covers both a null RPC result and a null `value`
(`if (!result?.value)`), which the code reports as success with null
data; any throw is caught into `{success: false, error}`. -/
def getAccountInfo (rpc : Except Thrown (Option AccountData)) : AccountInfoRes :=
  match rpc with
  | .error e =>
    { success := false, data := none
      error := some (thrownMessage "Failed to fetch account info" e) }
  | .ok none => { success := true, data := none, error := none }
  | .ok (some v) =>
    { success := true, data := some { lamports := v.lamports, owner := v.owner }
      error := none }

/-! ## The dust-account closing pipeline (`src/hooks/useCloseAccounts.ts`) -/

/-- The external world as `closeAccounts` sees it: the `getRecentBlockhash`
server action indexed by call number, the `simulateTransaction` server
action applied to the serialized transaction (modelled by the transaction
itself), and the `sendTransaction` server action, which as an awaited call
may also reject in transport. -/
structure CloseEnv where
  getRecentBlockhash : Nat → BhRes
  simulateTransaction : Tx → SimRes
  sendTransaction : Tx → Except Thrown SendRes

/-- The observable effects of a `closeAccounts` run, in order: blockhash
fetches, per-token simulations (carrying the simulated transaction),
signing requests, and submissions. -/
inductive Ev where
  | fetchBlockhash
  | simulate (tx : Tx)
  | sign
  | send
deriving DecidableEq

/-- `CloseAccountsResult` (useCloseAccounts.ts lines 25-32). -/
structure CloseResult where
  success : Bool
  signature : Option String
  error : Option String
  closedCount : Nat
  skippedCount : Option Nat
  closedMints : Option (List String)
deriving DecidableEq

/-- A full run of `closeAccounts`: the returned result, the effect trace,
and the `setClosedMints` / `setReclaimedSOL` state updates (one entry per
successfully sent batch; the reclaimed amount is
`batch.mints.length * 0.00203928`, recorded by the batch size). -/
structure CloseRun where
  result : CloseResult
  events : List Ev
  mintUpdates : List (List String)
  reclaimUpdates : List Nat
deriving DecidableEq

/-- One entry of the hook's `simulationResults` array
(useCloseAccounts.ts lines 111-126). -/
structure SimOutcome where
  token : TokenToClose
  instructions : List Ix
  valid : Bool
deriving DecidableEq

/-- One entry of the hook's `batches` array (useCloseAccounts.ts
lines 147-158). -/
structure Batch where
  instructions : List Ix
  mints : List String
deriving DecidableEq

/-- The batching loop `for (let i = 0; i < n; i += 5) slice(i, i + 5)`
(useCloseAccounts.ts line 152, with `MAX_ACCOUNTS_PER_TX = 5`):
consecutive slices of five, the last possibly shorter (written out
structurally so that it computes by reduction). -/
def chunks5 : List α → List (List α)
  | [] => []
  | [a] => [[a]]
  | [a, b] => [[a, b]]
  | [a, b, c] => [[a, b, c]]
  | [a, b, c, d] => [[a, b, c, d]]
  | a :: b :: c :: d :: e :: rest => [a, b, c, d, e] :: chunks5 rest

/-- Batch records built from the chunks (instructions flattened, mints
collected). -/
def mkBatches (valid : List SimOutcome) : List Batch :=
  (chunks5 valid).map (fun c =>
    { instructions := c.flatMap (fun r => r.instructions)
      mints := c.map (fun r => r.token.mint) })

/-- The accumulators of the batch-processing loop
(useCloseAccounts.ts lines 160-163) plus the effect trace and state
updates. -/
structure LoopAcc where
  closedCount : Nat
  lastSignature : Option String
  lastError : Option String
  allClosedMints : List String
  events : List Ev
  mintUpdates : List (List String)
  reclaimUpdates : List Nat
deriving DecidableEq

/-- Outcome of the batch loop: normal completion, or a throw escaping the
loop (a failed per-batch blockhash fetch), carrying the effects already
performed. -/
inductive LoopOut where
  | finished (acc : LoopAcc)
  | threw (acc : LoopAcc) (msg : String)
deriving DecidableEq

/-- The batch-processing loop (useCloseAccounts.ts lines 166-208).
`k` counts `getRecentBlockhash` calls so far.  A failed blockhash fetch
throws out of the loop; a throw from signing or sending is caught in the
per-batch `catch` and recorded in `lastError`; a send whose result object
reports failure records `sendResult.error`. -/
def processBatches (env : CloseEnv) (pk : String)
    (signTx : Tx → Except Thrown Tx) :
    List Batch → Nat → LoopAcc → LoopOut
  | [], _, acc => .finished acc
  | b :: rest, k, acc =>
    let bh := env.getRecentBlockhash k
    let acc1 := { acc with events := acc.events ++ [Ev.fetchBlockhash] }
    match bh.success, bh.data with
    | true, some d =>
      let tx : Tx :=
        { recentBlockhash := d.blockhash, feePayer := pk, instructions := b.instructions }
      let acc2 := { acc1 with events := acc1.events ++ [Ev.sign] }
      match signTx tx with
      | .error e =>
        processBatches env pk signTx rest (k + 1)
          { acc2 with lastError := some (thrownMessage "Unknown error" e) }
      | .ok signed =>
        let acc3 := { acc2 with events := acc2.events ++ [Ev.send] }
        match env.sendTransaction signed with
        | .error e =>
          processBatches env pk signTx rest (k + 1)
            { acc3 with lastError := some (thrownMessage "Unknown error" e) }
        | .ok sr =>
          if sr.success then
            processBatches env pk signTx rest (k + 1)
              { acc3 with
                closedCount := acc3.closedCount + b.mints.length
                lastSignature := sr.signature
                allClosedMints := acc3.allClosedMints ++ b.mints
                mintUpdates := acc3.mintUpdates ++ [b.mints]
                reclaimUpdates := acc3.reclaimUpdates ++ [b.mints.length] }
          else
            processBatches env pk signTx rest (k + 1)
              { acc3 with lastError := sr.error }
    | _, _ =>
      .threw acc1 (jsOr bh.error "Failed to get blockhash")

/-- The `simulationResults` array of a run, given the initial blockhash
string: each token paired with its instruction list and the success flag
of its individual simulation (useCloseAccounts.ts lines 111-126). -/
def closeSimOutcomes (env : CloseEnv) (pk bh0 : String)
    (tokens : List TokenToClose) : List SimOutcome :=
  tokens.map (fun t =>
    { token := t
      instructions := buildIxs pk t
      valid := (env.simulateTransaction
        { recentBlockhash := bh0, feePayer := pk, instructions := buildIxs pk t }).success })

/-- The `validTokens` array: simulation survivors
(useCloseAccounts.ts line 127). -/
def closeValid (env : CloseEnv) (pk bh0 : String)
    (tokens : List TokenToClose) : List SimOutcome :=
  (closeSimOutcomes env pk bh0 tokens).filter (fun r => r.valid)

/-- The simulation events a run emits, one per token, each carrying that
token's own unsigned transaction. -/
def closeSimEvents (env : CloseEnv) (pk bh0 : String)
    (tokens : List TokenToClose) : List Ev :=
  tokens.map (fun t =>
    Ev.simulate { recentBlockhash := bh0, feePayer := pk, instructions := buildIxs pk t })

/-- `closeAccounts` (useCloseAccounts.ts lines 46-238).  `publicKey` and
`signTransaction` come from the wallet adapter; a missing one hits the
`Wallet not connected` guard.  The status-message and `isClosing` state is
not modelled; the `closedMints`/`reclaimedSOL` state is recorded as the
update lists of the returned `CloseRun`. -/
def closeAccounts (env : CloseEnv) (publicKey : Option String)
    (signTransaction : Option (Tx → Except Thrown Tx))
    (tokens : List TokenToClose) : CloseRun :=
  match publicKey, signTransaction with
  | some pk, some signTx =>
    if tokens = [] then
      { result :=
          { success := false, signature := none, error := some "No accounts selected"
            closedCount := 0, skippedCount := none, closedMints := none }
        events := [], mintUpdates := [], reclaimUpdates := [] }
    else
      let bh0 := env.getRecentBlockhash 0
      match bh0.success, bh0.data with
      | true, some d0 =>
        let simulationResults := closeSimOutcomes env pk d0.blockhash tokens
        let validTokens := simulationResults.filter (fun r => r.valid)
        let skippedCount := simulationResults.length - validTokens.length
        if validTokens = [] then
          { result :=
              { success := false, signature := none
                error := some "All accounts are frozen or invalid"
                closedCount := 0, skippedCount := some skippedCount, closedMints := none }
            events := Ev.fetchBlockhash :: closeSimEvents env pk d0.blockhash tokens
            mintUpdates := [], reclaimUpdates := [] }
        else
          match processBatches env pk signTx (mkBatches validTokens) 1
              { closedCount := 0, lastSignature := none, lastError := none
                allClosedMints := []
                events := Ev.fetchBlockhash :: closeSimEvents env pk d0.blockhash tokens
                mintUpdates := [], reclaimUpdates := [] } with
          | .threw acc msg =>
            { result :=
                { success := false, signature := none, error := some msg
                  closedCount := 0, skippedCount := none, closedMints := none }
              events := acc.events, mintUpdates := acc.mintUpdates
              reclaimUpdates := acc.reclaimUpdates }
          | .finished acc =>
            if 0 < acc.closedCount then
              { result :=
                  { success := true, signature := acc.lastSignature, error := none
                    closedCount := acc.closedCount, skippedCount := some skippedCount
                    closedMints := some acc.allClosedMints }
                events := acc.events, mintUpdates := acc.mintUpdates
                reclaimUpdates := acc.reclaimUpdates }
            else
              { result :=
                  { success := false, signature := none
                    error := some (jsOr acc.lastError "Failed to close accounts")
                    closedCount := 0, skippedCount := some skippedCount
                    closedMints := none }
                events := acc.events, mintUpdates := acc.mintUpdates
                reclaimUpdates := acc.reclaimUpdates }
      | _, _ =>
        { result :=
            { success := false, signature := none
              error := some (jsOr bh0.error "Failed to get blockhash")
              closedCount := 0, skippedCount := none, closedMints := none }
          events := [Ev.fetchBlockhash], mintUpdates := [], reclaimUpdates := [] }
  | _, _ =>
    { result :=
        { success := false, signature := none, error := some "Wallet not connected"
          closedCount := 0, skippedCount := none, closedMints := none }
      events := [], mintUpdates := [], reclaimUpdates := [] }

/-! ## Spec-side views of the batch loop -/

/-- Last element of `l`, or `init` when `l` is empty: the final value of a
mutable variable initialised to `init` and assigned once per listed
iteration. -/
def lastOr (init : α) (l : List α) : α :=
  match l.getLast? with
  | some v => v
  | none => init

/-- The program id an instruction is addressed to. -/
def ixProgramId : Ix → String
  | .burn _ _ _ _ p => p
  | .closeAccount _ _ _ p => p

/-- The blockhash string delivered by the `k`-th `getRecentBlockhash` call
(empty when that call carried no data; only used where the call is assumed
successful). -/
def bhStr (env : CloseEnv) (k : Nat) : String :=
  match (env.getRecentBlockhash k).data with
  | some d => d.blockhash
  | none => ""

/-- The transaction the batch loop assembles for batch `b` at blockhash
call `k`. -/
def batchTx (env : CloseEnv) (pk : String) (k : Nat) (b : Batch) : Tx :=
  { recentBlockhash := bhStr env k, feePayer := pk, instructions := b.instructions }

/-- Spec-side classification of one batch iteration (meaningful when its
blockhash call succeeds): submitted with a successful send result, send
result reporting failure, or signing/sending threw. -/
inductive BatchOutcome where
  | sent (sig : Option String)
  | sendFailed (err : Option String)
  | threw (msg : String)
deriving DecidableEq

/-- The outcome of the batch at blockhash call `k`. -/
def batchOutcome (env : CloseEnv) (pk : String) (signTx : Tx → Except Thrown Tx)
    (k : Nat) (b : Batch) : BatchOutcome :=
  match signTx (batchTx env pk k b) with
  | .error e => .threw (thrownMessage "Unknown error" e)
  | .ok signed =>
    match env.sendTransaction signed with
    | .error e => .threw (thrownMessage "Unknown error" e)
    | .ok sr => if sr.success then .sent sr.signature else .sendFailed sr.error

/-- The batches submitted with a successful send result, over consecutive
blockhash calls starting at `k`. -/
def sentOf (env : CloseEnv) (pk : String) (signTx : Tx → Except Thrown Tx)
    (k : Nat) : List Batch → List Batch
  | [] => []
  | b :: bs =>
    (match batchOutcome env pk signTx k b with
     | .sent _ => [b]
     | _ => []) ++ sentOf env pk signTx (k + 1) bs

/-- The successive `lastError` assignments made by the failing iterations. -/
def failsOf (env : CloseEnv) (pk : String) (signTx : Tx → Except Thrown Tx)
    (k : Nat) : List Batch → List (Option String)
  | [] => []
  | b :: bs =>
    (match batchOutcome env pk signTx k b with
     | .sent _ => []
     | .sendFailed e => [e]
     | .threw m => [some m]) ++ failsOf env pk signTx (k + 1) bs

/-- The successive `lastSignature` assignments made by the successful
iterations. -/
def sigsOf (env : CloseEnv) (pk : String) (signTx : Tx → Except Thrown Tx)
    (k : Nat) : List Batch → List (Option String)
  | [] => []
  | b :: bs =>
    (match batchOutcome env pk signTx k b with
     | .sent sig => [sig]
     | _ => []) ++ sigsOf env pk signTx (k + 1) bs

/-- The effect trace of the loop iterations starting at blockhash call `k`
(meaningful when every such call succeeds): each batch fetches a fresh
blockhash and requests a signature, and is submitted unless signing threw. -/
def loopEventsOf (env : CloseEnv) (pk : String) (signTx : Tx → Except Thrown Tx)
    (k : Nat) : List Batch → List Ev
  | [] => []
  | b :: bs =>
    ([Ev.fetchBlockhash, Ev.sign] ++
      (match signTx (batchTx env pk k b) with
       | .ok _ => [Ev.send]
       | .error _ => [])) ++ loopEventsOf env pk signTx (k + 1) bs

/-! ## Concrete inputs used by witnesses and counterexamples -/

/-- A first sample wallet. -/
def walletA : Wallet := { address := "A", label := "Wallet 1", color := "#14F195" }

/-- A second sample wallet. -/
def walletB : Wallet := { address := "B", label := "Wallet 2", color := "#9945FF" }

/-- A sample transaction visible from both sample wallets. -/
def txS1 : HeliusTx :=
  { signature := "s1", type := "SWAP", source := "X", description := ""
    fee := 0, feePayer := "A", slot := 1, timestamp := 5 }

/-- Merge input in which both wallets report the same transaction. -/
def resultsW : List (Wallet × List HeliusTx) := [(walletA, [txS1]), (walletB, [txS1])]

/-- The merged record for `txS1` as seen twice (a self-transfer). -/
def parsedS1 : ParsedTransaction :=
  { signature := "s1", type := "SWAP", source := "X", description := ""
    fee := 0, feePayer := "A", slot := 1, timestamp := 5, blockTime := 5
    isSelfTransfer := true, walletLabel := "Wallet 1", walletColor := "#14F195" }

/-- The merged record for `txS1` as seen once. -/
def parsedS1once : ParsedTransaction :=
  { signature := "s1", type := "SWAP", source := "X", description := ""
    fee := 0, feePayer := "A", slot := 1, timestamp := 5, blockTime := 5
    isSelfTransfer := false, walletLabel := "Wallet 1", walletColor := "#14F195" }

/-- A fetch oracle returning the single sample transaction. -/
def fetchOne : FetchOracle := fun _ _ _ => .ok [txS1]

/-- An environment in which every external operation succeeds. -/
def envOk : CloseEnv :=
  { getRecentBlockhash := fun _ =>
      { success := true
        data := some { blockhash := "bh", lastValidBlockHeight := 1 }, error := none }
    simulateTransaction := fun _ => { success := true, error := none }
    sendTransaction := fun _ =>
      .ok { success := true, signature := some "sig", error := none } }

/-- An environment in which every simulation reports failure. -/
def envSimFail : CloseEnv :=
  { getRecentBlockhash := fun _ =>
      { success := true
        data := some { blockhash := "bh", lastValidBlockHeight := 1 }, error := none }
    simulateTransaction := fun _ => { success := false, error := some "frozen" }
    sendTransaction := fun _ =>
      .ok { success := true, signature := some "sig", error := none } }

/-- An environment in which the blockhash endpoint fails from its third
call on (so the initial fetch and the first batch succeed and the second
batch's fetch throws). -/
def envBhDrop : CloseEnv :=
  { getRecentBlockhash := fun k =>
      if k ≤ 1 then
        { success := true
          data := some { blockhash := "bh", lastValidBlockHeight := 1 }, error := none }
      else { success := false, data := none, error := some "rpc down" }
    simulateTransaction := fun _ => { success := true, error := none }
    sendTransaction := fun _ =>
      .ok { success := true, signature := some "sig1", error := none } }

/-- A signer that signs every transaction. -/
def signOk : Tx → Except Thrown Tx := fun tx => .ok tx

/-- A plain token with no program override and no balance. -/
def mkToken (m : String) : TokenToClose :=
  { mint := m, tokenProgram := none, balance := none }

/-- Six plain tokens: enough for two batches (5 + 1). -/
def tokensSix : List TokenToClose :=
  [mkToken "m1", mkToken "m2", mkToken "m3", mkToken "m4", mkToken "m5", mkToken "m6"]

/-! ## Lemmas about the merge/dedup logic -/

/-- The (wallet, transaction) pairs the two nested loops of
`mergeTransactions` traverse, in order. -/
def pairsOf (results : List (Wallet × List HeliusTx)) : List (Wallet × HeliusTx) :=
  results.flatMap (fun r => r.2.map (fun tx => (r.1, tx)))

/-- Signature multiplicity in a processed prefix of the traversal. -/
def countSig (seen : List (Wallet × HeliusTx)) (s : String) : Nat :=
  (seen.map (fun p => p.2.signature)).count s

theorem mergeMap_eq_flat_aux (results : List (Wallet × List HeliusTx)) :
    ∀ acc : List ParsedTransaction,
    results.foldl (fun acc r => r.2.foldl (fun acc2 tx => upsertTx acc2 r.1 tx) acc) acc
      = (pairsOf results).foldl (fun a q => upsertTx a q.1 q.2) acc := by
  induction results with
  | nil => intro acc; simp [pairsOf]
  | cons r rs ih =>
    intro acc
    simp only [List.foldl_cons, pairsOf, List.flatMap_cons, List.foldl_append, List.foldl_map]
    rw [ih]
    rfl

theorem mergeMap_eq_flat (results : List (Wallet × List HeliusTx)) :
    mergeMap results = (pairsOf results).foldl (fun a q => upsertTx a q.1 q.2) [] := by
  unfold mergeMap
  exact mergeMap_eq_flat_aux results []

theorem countSig_append (seen : List (Wallet × HeliusTx)) (q : Wallet × HeliusTx)
    (s : String) :
    countSig (seen ++ [q]) s
      = countSig seen s + (if q.2.signature = s then 1 else 0) := by
  unfold countSig
  rw [List.map_append, List.count_append]
  simp [List.count_cons, List.count_nil, beq_iff_eq]


theorem upsert_step_invariant (acc : List ParsedTransaction)
    (seen : List (Wallet × HeliusTx)) (q : Wallet × HeliusTx)
    (h1 : (acc.map (fun p => p.signature)).Nodup)
    (h2 : ∀ s, (s ∈ acc.map (fun p => p.signature)) ↔ 0 < countSig seen s)
    (h3 : ∀ p ∈ acc, p.isSelfTransfer = true ↔ 1 < countSig seen p.signature) :
    ((upsertTx acc q.1 q.2).map (fun p => p.signature)).Nodup ∧
    (∀ s, (s ∈ (upsertTx acc q.1 q.2).map (fun p => p.signature))
        ↔ 0 < countSig (seen ++ [q]) s) ∧
    (∀ p ∈ upsertTx acc q.1 q.2,
        p.isSelfTransfer = true ↔ 1 < countSig (seen ++ [q]) p.signature) := by
  by_cases hmem : ∃ p ∈ acc, p.signature = q.2.signature
  · have hany : acc.any (fun p => decide (p.signature = q.2.signature)) = true := by
      simp only [List.any_eq_true, decide_eq_true_eq]
      exact hmem
    have hup : upsertTx acc q.1 q.2
        = acc.map (fun p =>
            if p.signature = q.2.signature then { p with isSelfTransfer := true } else p) := by
      simp [upsertTx, hany]
    have hsame :
        (upsertTx acc q.1 q.2).map (fun p => p.signature)
          = acc.map (fun p => p.signature) := by
      rw [hup, List.map_map]
      apply List.map_congr_left
      intro a _
      by_cases h : a.signature = q.2.signature <;> simp [h]
    have hsigmem : q.2.signature ∈ acc.map (fun p => p.signature) := by
      obtain ⟨p, hp, hps⟩ := hmem
      exact List.mem_map.mpr ⟨p, hp, hps⟩
    have hpos : 0 < countSig seen q.2.signature := (h2 _).mp hsigmem
    refine ⟨hsame ▸ h1, ?_, ?_⟩
    · intro s
      rw [hsame, countSig_append]
      by_cases hqs : q.2.signature = s
      · rw [if_pos hqs]
        have hspos : 0 < countSig seen s := hqs ▸ hpos
        constructor
        · intro _; omega
        · intro _; exact hqs ▸ hsigmem
      · rw [if_neg hqs, Nat.add_zero]
        exact h2 s
    · intro p hp
      rw [hup] at hp
      obtain ⟨a, ha, hap⟩ := List.mem_map.mp hp
      by_cases h : a.signature = q.2.signature
      · have hp1 : p = { a with isSelfTransfer := true } := by
          rw [← hap, if_pos h]
        have hsig : p.signature = q.2.signature := by
          rw [hp1]; simpa using h
        have hflag : p.isSelfTransfer = true := by
          rw [hp1]
        have hcnt : countSig (seen ++ [q]) p.signature
            = countSig seen q.2.signature + 1 := by
          rw [countSig_append, hsig, if_pos rfl]
        rw [hcnt, hflag]
        constructor
        · intro _; omega
        · intro _; rfl
      · have hp1 : p = a := by rw [← hap, if_neg h]
        subst hp1
        have hcnt : countSig (seen ++ [q]) p.signature = countSig seen p.signature := by
          rw [countSig_append, if_neg (fun hh => h hh.symm), Nat.add_zero]
        rw [hcnt]
        exact h3 p ha
  · have hany : acc.any (fun p => decide (p.signature = q.2.signature)) = false := by
      simp only [List.any_eq_false, decide_eq_true_eq]
      intro p hp hps
      exact hmem ⟨p, hp, hps⟩
    have hnotmem : q.2.signature ∉ acc.map (fun p => p.signature) := by
      intro hc
      obtain ⟨p, hp, hps⟩ := List.mem_map.mp hc
      exact hmem ⟨p, hp, hps⟩
    have hzero : countSig seen q.2.signature = 0 := by
      by_contra hc
      exact hnotmem ((h2 _).mpr (Nat.pos_of_ne_zero hc))
    have hlist : upsertTx acc q.1 q.2 = acc ++ [toParsed q.1 q.2] := by
      simp [upsertTx, hany]
    have htp : (toParsed q.1 q.2).signature = q.2.signature := rfl
    have hflagtp : (toParsed q.1 q.2).isSelfTransfer = false := rfl
    refine ⟨?_, ?_, ?_⟩
    · rw [hlist, List.map_append]
      simp only [List.map_cons, List.map_nil]
      rw [List.nodup_append]
      refine ⟨h1, List.nodup_singleton _, ?_⟩
      intro s hs hs2
      simp only [List.mem_singleton] at hs2
      rw [hs2, htp] at hs
      exact hnotmem hs
    · intro s
      rw [hlist, List.map_append, countSig_append]
      simp only [List.mem_append, List.map_cons, List.map_nil, List.mem_singleton, htp]
      by_cases hqs : q.2.signature = s
      · rw [if_pos hqs]
        constructor
        · intro _; omega
        · intro _; right; exact hqs.symm
      · rw [if_neg hqs, Nat.add_zero]
        constructor
        · intro hor
          rcases hor with h | h
          · exact (h2 s).mp h
          · exact absurd h.symm hqs
        · intro h
          left
          exact (h2 s).mpr h
    · intro p hp
      rw [hlist] at hp
      rcases List.mem_append.mp hp with hp | hp
      · have hne : p.signature ≠ q.2.signature := by
          intro hc
          exact hmem ⟨p, hp, hc⟩
        rw [countSig_append, if_neg (fun hh => hne hh.symm), Nat.add_zero]
        exact h3 p hp
      · simp only [List.mem_singleton] at hp
        subst hp
        rw [countSig_append, htp, if_pos rfl, hzero, hflagtp]
        simp

theorem upsert_fold_invariant :
    ∀ (pairs : List (Wallet × HeliusTx)) (acc : List ParsedTransaction)
      (seen : List (Wallet × HeliusTx)),
    ((acc.map (fun p => p.signature)).Nodup) →
    (∀ s, (s ∈ acc.map (fun p => p.signature)) ↔ 0 < countSig seen s) →
    (∀ p ∈ acc, p.isSelfTransfer = true ↔ 1 < countSig seen p.signature) →
    (((pairs.foldl (fun a q => upsertTx a q.1 q.2) acc).map
        (fun p => p.signature)).Nodup) ∧
    (∀ s, (s ∈ (pairs.foldl (fun a q => upsertTx a q.1 q.2) acc).map
        (fun p => p.signature)) ↔ 0 < countSig (seen ++ pairs) s) ∧
    (∀ p ∈ pairs.foldl (fun a q => upsertTx a q.1 q.2) acc,
        p.isSelfTransfer = true ↔ 1 < countSig (seen ++ pairs) p.signature) := by
  intro pairs
  induction pairs with
  | nil =>
    intro acc seen h1 h2 h3
    rw [List.foldl_nil, List.append_nil]
    exact ⟨h1, h2, h3⟩
  | cons q rest ih =>
    intro acc seen h1 h2 h3
    obtain ⟨g1, g2, g3⟩ := upsert_step_invariant acc seen q h1 h2 h3
    have hres := ih (upsertTx acc q.1 q.2) (seen ++ [q]) g1 g2 g3
    rw [List.foldl_cons]
    have hseen : seen ++ [q] ++ rest = seen ++ q :: rest := by
      rw [List.append_assoc, List.singleton_append]
    rw [hseen] at hres
    exact hres

theorem pairsOf_sigs (results : List (Wallet × List HeliusTx)) :
    (pairsOf results).map (fun p => p.2.signature) = mergeSignatures results := by
  unfold pairsOf mergeSignatures
  rw [List.map_flatMap]
  congr 1
  funext r
  rw [List.map_map]
  rfl

theorem countSig_pairsOf (results : List (Wallet × List HeliusTx)) (s : String) :
    countSig (pairsOf results) s = (mergeSignatures results).count s := by
  unfold countSig
  rw [pairsOf_sigs]

theorem mergeMap_invariant (results : List (Wallet × List HeliusTx)) :
    (((mergeMap results).map (fun p => p.signature)).Nodup) ∧
    (∀ s, (s ∈ (mergeMap results).map (fun p => p.signature))
        ↔ 0 < (mergeSignatures results).count s) ∧
    (∀ p ∈ mergeMap results,
        p.isSelfTransfer = true ↔ 1 < (mergeSignatures results).count p.signature) := by
  rw [mergeMap_eq_flat]
  have h := upsert_fold_invariant (pairsOf results) [] []
      (by simp) (by simp [countSig]) (by simp)
  rw [List.nil_append] at h
  obtain ⟨g1, g2, g3⟩ := h
  refine ⟨g1, ?_, ?_⟩
  · intro s
    rw [← countSig_pairsOf]
    exact g2 s
  · intro p hp
    rw [← countSig_pairsOf]
    exact g3 p hp

theorem mergeTransactions_perm (results : List (Wallet × List HeliusTx)) :
    (mergeTransactions results).Perm (mergeMap results) := by
  unfold mergeTransactions
  exact List.mergeSort_perm _ _

/-- C1: `mergeTransactions` deduplicates by signature — in the output every
signature occurs exactly once and the set of output signatures equals the
set of input signatures — and a transaction is marked `isSelfTransfer`
exactly when its signature occurs in more than one position across the
input lists; a signature seen only once keeps `isSelfTransfer = false`. -/
theorem mergeTransactions_dedup_selfTransfer
    (results : List (Wallet × List HeliusTx)) :
    (((mergeTransactions results).map (fun p => p.signature)).Nodup) ∧
    (∀ s, (s ∈ (mergeTransactions results).map (fun p => p.signature))
        ↔ s ∈ mergeSignatures results) ∧
    (∀ p ∈ mergeTransactions results,
        (p.isSelfTransfer = true ↔ 1 < (mergeSignatures results).count p.signature) ∧
        ((mergeSignatures results).count p.signature = 1 → p.isSelfTransfer = false)) := by
  obtain ⟨g1, g2, g3⟩ := mergeMap_invariant results
  have hperm := mergeTransactions_perm results
  have hmap : ((mergeTransactions results).map (fun p => p.signature)).Perm
      ((mergeMap results).map (fun p => p.signature)) := hperm.map _
  refine ⟨hmap.nodup_iff.mpr g1, ?_, ?_⟩
  · intro s
    rw [hmap.mem_iff, g2 s, List.count_pos_iff]
  · intro p hp
    have hpm : p ∈ mergeMap results := hperm.mem_iff.mp hp
    refine ⟨g3 p hpm, ?_⟩
    intro hcount
    cases hflag : p.isSelfTransfer
    · rfl
    · have := (g3 p hpm).mp hflag
      omega

theorem mergeTransactions_sig_nodup (results : List (Wallet × List HeliusTx)) :
    ((mergeTransactions results).map (fun p => p.signature)).Nodup := by
  have hperm := (mergeTransactions_perm results).map (fun p => p.signature)
  exact hperm.nodup_iff.mpr (mergeMap_invariant results).1

theorem mergeTransactions_sorted (results : List (Wallet × List HeliusTx)) :
    (mergeTransactions results).Pairwise (fun a b => b.timestamp ≤ a.timestamp) := by
  unfold mergeTransactions
  have h := @List.sorted_mergeSort ParsedTransaction
      (fun a b => decide (b.timestamp ≤ a.timestamp))
      (fun a b c hab hbc => by
        simp only [decide_eq_true_eq] at hab hbc ⊢
        omega)
      (fun a b => by
        simp only [Bool.or_eq_true, decide_eq_true_eq]
        omega)
      (mergeMap results)
  exact h.imp (fun hab => by simpa using hab)

theorem mergeTransactions_resultsW : mergeTransactions resultsW = [parsedS1] := by
  have hperm := mergeTransactions_perm resultsW
  have hm : mergeMap resultsW = [parsedS1] := by decide
  rw [hm] at hperm
  exact List.perm_singleton.mp hperm

/-- Witness for the C1 theorem at a concrete input in which the same
signature is reported by two wallets. -/
theorem mergeTransactions_dedup_selfTransfer_witness :
    parsedS1 ∈ mergeTransactions resultsW ∧
    (parsedS1.isSelfTransfer = true
      ↔ 1 < (mergeSignatures resultsW).count parsedS1.signature) := by
  have hmem : parsedS1 ∈ mergeTransactions resultsW := by
    rw [mergeTransactions_resultsW]
    exact List.mem_singleton_self _
  exact ⟨hmem, ((mergeTransactions_dedup_selfTransfer resultsW).2.2 parsedS1 hmem).1⟩

/-- C6: `getTimeline` implements cursor pagination over the merged
multi-wallet history: the returned data is the merged, deduplicated list,
sorted by timestamp descending, truncated to at most `limit` entries;
`nextCursor` is the signature of the last returned transaction (absent
when the result is empty); and every per-wallet fetch receives the
caller's cursor as its `before` parameter (the fetches are exactly
`timelineResults`, in which `cursor` is passed to every wallet's fetch). -/
theorem getTimeline_pagination (fetch : FetchOracle) (wallets : List Wallet)
    (limit : Nat) (cursor : Option String) :
    (getTimeline fetch wallets limit cursor).success = true ∧
    (getTimeline fetch wallets limit cursor).data
      = some ((mergeTransactions (timelineResults fetch wallets limit cursor)).take limit) ∧
    ((mergeTransactions (timelineResults fetch wallets limit cursor)).take limit).length
      ≤ limit ∧
    ((mergeTransactions (timelineResults fetch wallets limit cursor)).take limit).Pairwise
      (fun a b => b.timestamp ≤ a.timestamp) ∧
    (((mergeTransactions (timelineResults fetch wallets limit cursor)).take limit).map
      (fun p => p.signature)).Nodup ∧
    (getTimeline fetch wallets limit cursor).nextCursor
      = (((mergeTransactions (timelineResults fetch wallets limit cursor)).take
          limit).getLast?).map (fun p => p.signature) := by
  refine ⟨rfl, rfl, ?_, ?_, ?_, rfl⟩
  · rw [List.length_take]
    exact inf_le_left
  · exact List.Pairwise.sublist (List.take_sublist _ _) (mergeTransactions_sorted _)
  · rw [List.map_take]
    exact List.Nodup.sublist (List.take_sublist _ _) (mergeTransactions_sig_nodup _)

/-- C8 counterexample: when `primaryWallet` is the empty string — a value
that is not null — `addWallet` of a fresh address still reassigns
`primaryWallet` to the new address, because `state.primaryWallet || address`
treats the empty string as falsy. -/
theorem addWallet_counterexample :
    ({ wallets := [{ address := "", label := "W", color := "#14F195" }]
       primaryWallet := some "", isWarpComplete := false } : WalletState).primaryWallet
        ≠ none ∧
    (addWallet
      { wallets := [{ address := "", label := "W", color := "#14F195" }]
        primaryWallet := some "", isWarpComplete := false } "x" none).primaryWallet
        = some "x" := by
  decide

/-- C8 (amended): `addWallet` with an address already present leaves the
state unchanged; with a new address it appends a wallet with color
`WALLET_COLORS[length % 8]` and the label defaulting per JavaScript
truthiness, and `primaryWallet` is reassigned to the new address exactly
when it was previously null or the empty string (otherwise unchanged). -/
theorem addWallet_spec (s : WalletState) (address : String) (label : Option String) :
    ((∃ w ∈ s.wallets, w.address = address) → addWallet s address label = s) ∧
    ((¬ ∃ w ∈ s.wallets, w.address = address) →
      (addWallet s address label).wallets
        = s.wallets ++
            [{ address := address
               label := jsOr label ("Wallet " ++ toString (s.wallets.length + 1))
               color := WALLET_COLORS.getD (s.wallets.length % 8) "" }] ∧
      ((s.primaryWallet = none ∨ s.primaryWallet = some "") →
        (addWallet s address label).primaryWallet = some address) ∧
      (∀ p, s.primaryWallet = some p → p ≠ "" →
        (addWallet s address label).primaryWallet = some p)) := by
  have h8 : WALLET_COLORS.length = 8 := rfl
  constructor
  · intro hdup
    have hany : s.wallets.any (fun w => decide (w.address = address)) = true := by
      simp only [List.any_eq_true, decide_eq_true_eq]
      exact hdup
    simp [addWallet, hany]
  · intro hdup
    have hany : s.wallets.any (fun w => decide (w.address = address)) = false := by
      simp only [List.any_eq_false, decide_eq_true_eq]
      intro w hw hc
      exact hdup ⟨w, hw, hc⟩
    refine ⟨?_, ?_, ?_⟩
    · simp [addWallet, hany, h8]
    · intro hp
      rcases hp with hp | hp <;> simp [addWallet, hany, jsOr, hp]
    · intro p hp hne
      simp [addWallet, hany, jsOr, hp, hne]

/-- Witness for the amended C8 theorem: on an empty store, adding address
`A` appends the first wallet and makes it primary. -/
theorem addWallet_spec_witness :
    (addWallet { wallets := [], primaryWallet := none, isWarpComplete := false }
        "A" none).wallets
      = [{ address := "A", label := "Wallet 1", color := "#14F195" }] ∧
    (addWallet { wallets := [], primaryWallet := none, isWarpComplete := false }
        "A" none).primaryWallet = some "A" := by
  have h := (addWallet_spec
      { wallets := [], primaryWallet := none, isWarpComplete := false } "A" none).2
      (by decide)
  refine ⟨?_, h.2.1 (Or.inl rfl)⟩
  rw [h.1]
  decide

/-- C9 counterexample: `setPrimaryWallet` is a wallet-store operation that
does not preserve the invariant — it accepts an address that is not in the
wallet list. -/
theorem setPrimaryWallet_counterexample :
    PrimaryInv { wallets := [], primaryWallet := none, isWarpComplete := false } ∧
    ¬ PrimaryInv (setPrimaryWallet
        { wallets := [], primaryWallet := none, isWarpComplete := false } "x") := by
  decide

/-- C9 (amended): `addWallet`, `removeWallet`, `updateWalletLabel` and
`clearWallets` preserve the invariant that `primaryWallet` is null or a
stored wallet's address (`setPrimaryWallet` does not).  `removeWallet` of
the current primary reassigns `primaryWallet` to the first remaining
wallet's address — or to null when the list becomes empty or when that
address is the empty string — while `removeWallet` of a non-primary wallet
leaves `primaryWallet` unchanged, and `clearWallets` empties the list and
nulls the primary. -/
theorem walletStore_invariant (s : WalletState) (address lbl : String)
    (label : Option String) :
    (PrimaryInv s →
      PrimaryInv (addWallet s address label) ∧ PrimaryInv (removeWallet s address) ∧
      PrimaryInv (updateWalletLabel s address lbl) ∧ PrimaryInv (clearWallets s)) ∧
    (s.primaryWallet = some address →
      ((s.wallets.filter (fun w => w.address ≠ address)) = [] →
        (removeWallet s address).primaryWallet = none) ∧
      (∀ w, (s.wallets.filter (fun w => w.address ≠ address)).head? = some w →
        ((w.address = "" → (removeWallet s address).primaryWallet = none) ∧
         (w.address ≠ "" →
            (removeWallet s address).primaryWallet = some w.address)))) ∧
    (s.primaryWallet ≠ some address →
      (removeWallet s address).primaryWallet = s.primaryWallet) ∧
    ((clearWallets s).wallets = [] ∧ (clearWallets s).primaryWallet = none) := by
  refine ⟨?_, ?_, ?_, rfl, rfl⟩
  · intro hinv
    refine ⟨?_, ?_, ?_, Or.inl rfl⟩
    · -- addWallet preserves the invariant
      cases hany : s.wallets.any (fun w => decide (w.address = address)) with
      | true =>
        have heq : addWallet s address label = s := by simp [addWallet, hany]
        rw [heq]
        exact hinv
      | false =>
        unfold PrimaryInv
        cases hp : s.primaryWallet with
        | none =>
          right
          refine ⟨{ address := address,
                    label := jsOr label ("Wallet " ++ toString (s.wallets.length + 1)),
                    color := WALLET_COLORS.getD
                      (s.wallets.length % WALLET_COLORS.length) "" },
            ?_, ?_⟩
          · simp [addWallet, hany]
          · simp [addWallet, hany, hp, jsOr]
        | some p =>
          by_cases hps : p = ""
          · right
            refine ⟨{ address := address,
                      label := jsOr label ("Wallet " ++ toString (s.wallets.length + 1)),
                      color := WALLET_COLORS.getD
                        (s.wallets.length % WALLET_COLORS.length) "" },
              ?_, ?_⟩
            · simp [addWallet, hany]
            · simp [addWallet, hany, hp, jsOr, hps]
          · rcases hinv with h | ⟨w, hw, heq⟩
            · rw [hp] at h
              exact absurd h (by simp)
            · right
              refine ⟨w, ?_, ?_⟩
              · simp [addWallet, hany, List.mem_append, hw]
              · rw [hp] at heq
                have hwp : p = w.address := by
                  injection heq
                rw [← hwp]
                simp [addWallet, hany, hp, jsOr, hps]
    · -- removeWallet preserves the invariant
      unfold PrimaryInv
      have hprim : (removeWallet s address).primaryWallet
          = (if s.primaryWallet = some address then
              jsOrNull (((s.wallets.filter (fun w => w.address ≠ address)).head?).map
                (fun w => w.address))
            else s.primaryWallet) := rfl
      have hwl : (removeWallet s address).wallets
          = s.wallets.filter (fun w => w.address ≠ address) := rfl
      by_cases hp : s.primaryWallet = some address
      · cases hnw : s.wallets.filter (fun w => w.address ≠ address) with
        | nil =>
          left
          rw [hprim, if_pos hp, hnw]
          rfl
        | cons w t =>
          by_cases hwa : w.address = ""
          · left
            rw [hprim, if_pos hp, hnw]
            simp [jsOrNull, hwa]
          · right
            refine ⟨w, ?_, ?_⟩
            · rw [hwl, hnw]
              exact List.mem_cons_self _ _
            · rw [hprim, if_pos hp, hnw]
              simp [jsOrNull, hwa]
      · rcases hinv with h | ⟨w, hw, heq⟩
        · left
          rw [hprim, if_neg hp]
          exact h
        · right
          refine ⟨w, ?_, ?_⟩
          · have hwa : ¬ w.address = address := by
              intro hc
              apply hp
              rw [heq, hc]
            rw [hwl]
            simp [List.mem_filter, hw, hwa]
          · rw [hprim, if_neg hp]
            exact heq
    · -- updateWalletLabel preserves the invariant
      unfold PrimaryInv
      rcases hinv with h | ⟨w, hw, heq⟩
      · left; simpa [updateWalletLabel] using h
      · right
        refine ⟨(fun w => if w.address = address then { w with label := lbl } else w) w,
          ?_, ?_⟩
        · exact List.mem_map_of_mem _ hw
        · by_cases h2 : w.address = address <;> simp [updateWalletLabel, h2, heq]
  · intro hp
    have hprim : (removeWallet s address).primaryWallet
        = (if s.primaryWallet = some address then
            jsOrNull (((s.wallets.filter (fun w => w.address ≠ address)).head?).map
              (fun w => w.address))
          else s.primaryWallet) := rfl
    constructor
    · intro hnil
      rw [hprim, if_pos hp, hnil]
      rfl
    · intro w hw
      constructor
      · intro hwa
        rw [hprim, if_pos hp, hw]
        simp [jsOrNull, hwa]
      · intro hwa
        rw [hprim, if_pos hp, hw]
        simp [jsOrNull, hwa]
  · intro hne
    have hprim : (removeWallet s address).primaryWallet
        = (if s.primaryWallet = some address then
            jsOrNull (((s.wallets.filter (fun w => w.address ≠ address)).head?).map
              (fun w => w.address))
          else s.primaryWallet) := rfl
    rw [hprim, if_neg hne]

/-- Witness for the amended C9 theorem: removing the primary wallet of a
one-wallet store keeps the invariant. -/
theorem walletStore_invariant_witness :
    PrimaryInv { wallets := [walletA], primaryWallet := some "A", isWarpComplete := true } ∧
    PrimaryInv (removeWallet
        { wallets := [walletA], primaryWallet := some "A", isWarpComplete := true } "A") := by
  have h := (walletStore_invariant
      { wallets := [walletA], primaryWallet := some "A", isWarpComplete := true }
      "A" "L" none).1 (by decide)
  exact ⟨by decide, h.2.1⟩

/-- C3: for every token, the built instruction list ends with a
close-account instruction; a burn of exactly the token's raw balance
precedes it exactly when the balance is present and strictly positive
(zero-balance or balance-less accounts get only the close); and every
instruction is addressed to `TOKEN_2022_PROGRAM_ID` exactly when
`tokenProgram` equals the Token-2022 program id, and to
`TOKEN_PROGRAM_ID` otherwise. -/
theorem buildIxs_structure (owner : String) (t : TokenToClose) :
    (buildIxs owner t).getLast?
      = some (Ix.closeAccount
          (getAssociatedTokenAddressSync t.mint owner false
            (if t.tokenProgram = some TOKEN_2022_PROGRAM_ID then TOKEN_2022_PROGRAM_ID
             else TOKEN_PROGRAM_ID))
          owner owner
          (if t.tokenProgram = some TOKEN_2022_PROGRAM_ID then TOKEN_2022_PROGRAM_ID
           else TOKEN_PROGRAM_ID)) ∧
    (∀ b, t.balance = some b → 0 < b →
      buildIxs owner t
        = [Ix.burn
            (getAssociatedTokenAddressSync t.mint owner false
              (if t.tokenProgram = some TOKEN_2022_PROGRAM_ID then TOKEN_2022_PROGRAM_ID
               else TOKEN_PROGRAM_ID))
            t.mint owner b
            (if t.tokenProgram = some TOKEN_2022_PROGRAM_ID then TOKEN_2022_PROGRAM_ID
             else TOKEN_PROGRAM_ID),
           Ix.closeAccount
            (getAssociatedTokenAddressSync t.mint owner false
              (if t.tokenProgram = some TOKEN_2022_PROGRAM_ID then TOKEN_2022_PROGRAM_ID
               else TOKEN_PROGRAM_ID))
            owner owner
            (if t.tokenProgram = some TOKEN_2022_PROGRAM_ID then TOKEN_2022_PROGRAM_ID
             else TOKEN_PROGRAM_ID)]) ∧
    ((¬ ∃ b, t.balance = some b ∧ 0 < b) →
      buildIxs owner t
        = [Ix.closeAccount
            (getAssociatedTokenAddressSync t.mint owner false
              (if t.tokenProgram = some TOKEN_2022_PROGRAM_ID then TOKEN_2022_PROGRAM_ID
               else TOKEN_PROGRAM_ID))
            owner owner
            (if t.tokenProgram = some TOKEN_2022_PROGRAM_ID then TOKEN_2022_PROGRAM_ID
             else TOKEN_PROGRAM_ID)]) ∧
    (∀ ix ∈ buildIxs owner t,
      ixProgramId ix
        = (if t.tokenProgram = some TOKEN_2022_PROGRAM_ID then TOKEN_2022_PROGRAM_ID
           else TOKEN_PROGRAM_ID)) := by
  by_cases hbal : ∃ b, t.balance = some b ∧ 0 < b
  · obtain ⟨b, hb, hpos⟩ := hbal
    have hix : buildIxs owner t
        = [Ix.burn
            (getAssociatedTokenAddressSync t.mint owner false
              (if t.tokenProgram = some TOKEN_2022_PROGRAM_ID then TOKEN_2022_PROGRAM_ID
               else TOKEN_PROGRAM_ID))
            t.mint owner b
            (if t.tokenProgram = some TOKEN_2022_PROGRAM_ID then TOKEN_2022_PROGRAM_ID
             else TOKEN_PROGRAM_ID),
           Ix.closeAccount
            (getAssociatedTokenAddressSync t.mint owner false
              (if t.tokenProgram = some TOKEN_2022_PROGRAM_ID then TOKEN_2022_PROGRAM_ID
               else TOKEN_PROGRAM_ID))
            owner owner
            (if t.tokenProgram = some TOKEN_2022_PROGRAM_ID then TOKEN_2022_PROGRAM_ID
             else TOKEN_PROGRAM_ID)] := by
      simp [buildIxs, hb, hpos]
    refine ⟨?_, ?_, ?_, ?_⟩
    · rw [hix]; rfl
    · intro b2 hb2 hpos2
      rw [hb] at hb2
      have hbb : b = b2 := by injection hb2
      rw [hix, ← hbb]
    · intro hc
      exact absurd ⟨b, hb, hpos⟩ hc
    · intro ix hixm
      rw [hix] at hixm
      simp only [List.mem_cons, List.not_mem_nil, or_false] at hixm
      rcases hixm with h | h
      · subst h; rfl
      · subst h; rfl
  · have hix : buildIxs owner t
        = [Ix.closeAccount
            (getAssociatedTokenAddressSync t.mint owner false
              (if t.tokenProgram = some TOKEN_2022_PROGRAM_ID then TOKEN_2022_PROGRAM_ID
               else TOKEN_PROGRAM_ID))
            owner owner
            (if t.tokenProgram = some TOKEN_2022_PROGRAM_ID then TOKEN_2022_PROGRAM_ID
             else TOKEN_PROGRAM_ID)] := by
      cases hb : t.balance with
      | none => simp [buildIxs, hb]
      | some b =>
        have hnp : ¬ 0 < b := fun hc => hbal ⟨b, hb, hc⟩
        simp [buildIxs, hb, hnp]
    refine ⟨?_, ?_, ?_, ?_⟩
    · rw [hix]; rfl
    · intro b2 hb2 hpos2
      exact absurd ⟨b2, hb2, hpos2⟩ hbal
    · intro _
      exact hix
    · intro ix hixm
      rw [hix] at hixm
      simp only [List.mem_cons, List.not_mem_nil, or_false] at hixm
      subst hixm
      rfl

/-- Witness for the C3 theorem: a token with balance 7 gets a burn of 7
followed by a close, both on the classic token program. -/
theorem buildIxs_structure_witness :
    buildIxs "O" { mint := "M", tokenProgram := none, balance := some 7 }
      = [Ix.burn (getAssociatedTokenAddressSync "M" "O" false TOKEN_PROGRAM_ID)
          "M" "O" 7 TOKEN_PROGRAM_ID,
         Ix.closeAccount (getAssociatedTokenAddressSync "M" "O" false TOKEN_PROGRAM_ID)
          "O" "O" TOKEN_PROGRAM_ID] := by
  have h := (buildIxs_structure "O"
      { mint := "M", tokenProgram := none, balance := some 7 }).2.1 7 rfl (by decide)
  simpa using h

/-- C10: `closeAccounts` checks its preconditions before doing any work:
a missing `publicKey` or `signTransaction` yields the
`Wallet not connected` result and an empty token list yields the
`No accounts selected` result, in both cases with no blockhash fetch,
simulation, signing or submission (empty event trace) and no
`closedMints`/`reclaimedSOL` state update. -/
theorem closeAccounts_preconditions (env : CloseEnv) (publicKey : Option String)
    (signTransaction : Option (Tx → Except Thrown Tx)) (tokens : List TokenToClose) :
    ((publicKey = none ∨ signTransaction = none) →
      closeAccounts env publicKey signTransaction tokens
        = { result :=
              { success := false, signature := none,
                error := some "Wallet not connected", closedCount := 0,
                skippedCount := none, closedMints := none },
            events := [], mintUpdates := [], reclaimUpdates := [] }) ∧
    (tokens = [] → publicKey ≠ none → signTransaction ≠ none →
      closeAccounts env publicKey signTransaction tokens
        = { result :=
              { success := false, signature := none,
                error := some "No accounts selected", closedCount := 0,
                skippedCount := none, closedMints := none },
            events := [], mintUpdates := [], reclaimUpdates := [] }) := by
  constructor
  · intro h
    cases publicKey with
    | none => cases signTransaction <;> rfl
    | some pk =>
      cases signTransaction with
      | none => rfl
      | some sg =>
        rcases h with h | h <;> exact absurd h (by simp)
  · intro ht hpk hsg
    cases publicKey with
    | none => exact absurd rfl hpk
    | some pk =>
      cases signTransaction with
      | none => exact absurd rfl hsg
      | some sg =>
        subst ht
        rfl

/-- Witness for the C10 theorem: a disconnected wallet returns the
`Wallet not connected` result with no effects. -/
theorem closeAccounts_preconditions_witness :
    closeAccounts envOk none none []
      = { result :=
            { success := false, signature := none,
              error := some "Wallet not connected", closedCount := 0,
              skippedCount := none, closedMints := none },
          events := [], mintUpdates := [], reclaimUpdates := [] } :=
  (closeAccounts_preconditions envOk none none []).1 (Or.inl rfl)

/-- C5 counterexample: `getRecentBlockhash` catching an `Error` whose
message is the empty string returns a failure object whose error string is
empty, contradicting the claim that the error string is always non-empty. -/
theorem serverActions_counterexample :
    (getRecentBlockhash (Except.error (Thrown.errObj ""))).success = false ∧
    (getRecentBlockhash (Except.error (Thrown.errObj ""))).error = some "" := by
  constructor <;> rfl

/-- C5 (amended): every modelled server action terminates with a result
object: on success `success = true`; on failure `success = false` together
with an error string, and that string is non-empty unless it is the
verbatim (possibly empty) message of a caught `Error` or a verbatim
stringified simulation error (non-`Error` throws get fixed non-empty
fallback messages). -/
theorem serverActions_resultObjects :
    (∀ (fetch : FetchOracle) (wallets : List Wallet) (limit : Nat)
        (cursor : Option String),
      (getTimeline fetch wallets limit cursor).success = true) ∧
    (∀ latest, (getRecentBlockhash latest).success = true ∨
      ((getRecentBlockhash latest).success = false ∧
        ∃ s, (getRecentBlockhash latest).error = some s ∧
          (s ≠ "" ∨ latest = Except.error (Thrown.errObj "")))) ∧
    (∀ d latest sim, (simulateTransaction d latest sim).success = true ∨
      ((simulateTransaction d latest sim).success = false ∧
        ∃ s, (simulateTransaction d latest sim).error = some s ∧
          (s ≠ "" ∨ d = Except.error (Thrown.errObj "")
            ∨ latest = Except.error (Thrown.errObj "")
            ∨ (∃ tx, sim tx = Except.error (Thrown.errObj ""))
            ∨ (∃ tx, sim tx = Except.ok (some ""))))) ∧
    (∀ sendRaw latest confirm,
      (sendTransaction sendRaw latest confirm).success = true ∨
      ((sendTransaction sendRaw latest confirm).success = false ∧
        ∃ s, (sendTransaction sendRaw latest confirm).error = some s ∧
          (s ≠ "" ∨ sendRaw = Except.error (Thrown.errObj "")
            ∨ latest = Except.error (Thrown.errObj "")
            ∨ confirm = Except.error (Thrown.errObj "")))) ∧
    (∀ rpc, (getAccountInfo rpc).success = true ∨
      ((getAccountInfo rpc).success = false ∧
        ∃ s, (getAccountInfo rpc).error = some s ∧
          (s ≠ "" ∨ rpc = Except.error (Thrown.errObj "")))) := by
  refine ⟨fun _ _ _ _ => rfl, ?_, ?_, ?_, ?_⟩
  · intro latest
    cases latest with
    | ok d => left; rfl
    | error e =>
      right
      cases e with
      | errObj m =>
        refine ⟨rfl, m, rfl, ?_⟩
        by_cases hm : m = ""
        · right; rw [hm]
        · left; exact hm
      | nonError =>
        exact ⟨rfl, "Failed to get blockhash", rfl, Or.inl (by decide)⟩
  · intro d latest sim
    cases d with
    | error e =>
      right
      cases e with
      | errObj m =>
        refine ⟨rfl, m, rfl, ?_⟩
        by_cases hm : m = ""
        · right; left; rw [hm]
        · left; exact hm
      | nonError =>
        exact ⟨rfl, "Simulation failed", rfl, Or.inl (by decide)⟩
    | ok tx =>
      cases latest with
      | error e =>
        right
        cases e with
        | errObj m =>
          refine ⟨rfl, m, rfl, ?_⟩
          by_cases hm : m = ""
          · right; right; left; rw [hm]
          · left; exact hm
        | nonError =>
          exact ⟨rfl, "Simulation failed", rfl, Or.inl (by decide)⟩
      | ok bh =>
        cases hsim : sim { tx with recentBlockhash := bh.blockhash } with
        | error e =>
          right
          cases e with
          | errObj m =>
            refine ⟨?_, m, ?_, ?_⟩
            · simp [simulateTransaction, hsim]
            · simp [simulateTransaction, hsim, thrownMessage]
            · by_cases hm : m = ""
              · right; right; right; left
                exact ⟨_, by rw [hsim, hm]⟩
              · left; exact hm
          | nonError =>
            refine ⟨?_, "Simulation failed", ?_, Or.inl (by decide)⟩
            · simp [simulateTransaction, hsim]
            · simp [simulateTransaction, hsim, thrownMessage]
        | ok oerr =>
          cases oerr with
          | none =>
            left
            simp [simulateTransaction, hsim]
          | some s =>
            right
            refine ⟨?_, s, ?_, ?_⟩
            · simp [simulateTransaction, hsim]
            · simp [simulateTransaction, hsim]
            · by_cases hs : s = ""
              · right; right; right; right
                exact ⟨_, by rw [hsim, hs]⟩
              · left; exact hs
  · intro sendRaw latest confirm
    cases sendRaw with
    | error e =>
      right
      cases e with
      | errObj m =>
        refine ⟨rfl, m, rfl, ?_⟩
        by_cases hm : m = ""
        · right; left; rw [hm]
        · left; exact hm
      | nonError =>
        exact ⟨rfl, "Failed to send transaction", rfl, Or.inl (by decide)⟩
    | ok sig =>
      cases latest with
      | error e =>
        right
        cases e with
        | errObj m =>
          refine ⟨rfl, m, rfl, ?_⟩
          by_cases hm : m = ""
          · right; right; left; rw [hm]
          · left; exact hm
        | nonError =>
          exact ⟨rfl, "Failed to send transaction", rfl, Or.inl (by decide)⟩
      | ok bh =>
        cases confirm with
        | error e =>
          right
          cases e with
          | errObj m =>
            refine ⟨rfl, m, rfl, ?_⟩
            by_cases hm : m = ""
            · right; right; right; rw [hm]
            · left; exact hm
          | nonError =>
            exact ⟨rfl, "Failed to send transaction", rfl, Or.inl (by decide)⟩
        | ok u => left; rfl
  · intro rpc
    cases rpc with
    | ok v =>
      cases v with
      | none => left; rfl
      | some a => left; rfl
    | error e =>
      right
      cases e with
      | errObj m =>
        refine ⟨rfl, m, rfl, ?_⟩
        by_cases hm : m = ""
        · right; rw [hm]
        · left; exact hm
      | nonError =>
        exact ⟨rfl, "Failed to fetch account info", rfl, Or.inl (by decide)⟩

/-- Witness for the amended C5 theorem: a successful blockhash fetch
yields a success object. -/
theorem serverActions_resultObjects_witness :
    (getRecentBlockhash
        (Except.ok { blockhash := "bh", lastValidBlockHeight := 1 })).success = true ∨
    ((getRecentBlockhash
        (Except.ok { blockhash := "bh", lastValidBlockHeight := 1 })).success = false ∧
      ∃ s, (getRecentBlockhash
          (Except.ok { blockhash := "bh", lastValidBlockHeight := 1 })).error = some s ∧
        (s ≠ "" ∨ (Except.ok { blockhash := "bh", lastValidBlockHeight := 1 }
              : Except Thrown BhData)
            = Except.error (Thrown.errObj ""))) :=
  serverActions_resultObjects.2.1
    (Except.ok { blockhash := "bh", lastValidBlockHeight := 1 })

/-! ## Lemmas about the batch loop -/

theorem lastOr_fallback (a b y : α) (t : List α) :
    lastOr a (y :: t) = lastOr b (y :: t) := by
  induction t generalizing y with
  | nil => rfl
  | cons z t2 ih =>
    unfold lastOr
    rw [List.getLast?_cons_cons]
    have h := ih z
    unfold lastOr at h
    exact h

theorem lastOr_cons (init x : α) (l : List α) : lastOr init (x :: l) = lastOr x l := by
  cases l with
  | nil => rfl
  | cons y t =>
    have h1 : lastOr init (x :: y :: t) = lastOr init (y :: t) := by
      unfold lastOr
      rw [List.getLast?_cons_cons]
    rw [h1]
    exact lastOr_fallback init x y t

theorem chunks5_flatten : ∀ (l : List α), (chunks5 l).flatten = l := by
  intro l
  induction l using chunks5.induct with
  | case1 => rfl
  | case2 a => rfl
  | case3 a b => rfl
  | case4 a b c => rfl
  | case5 a b c d => rfl
  | case6 a b c d e rest ih =>
    simp [chunks5, ih]

theorem chunks5_mem : ∀ (l : List α), ∀ c ∈ chunks5 l, c ≠ [] ∧ c.length ≤ 5 := by
  intro l
  induction l using chunks5.induct with
  | case1 => intro c hc; cases hc
  | case2 a =>
    intro c hc
    simp only [chunks5, List.mem_singleton] at hc
    subst hc; exact ⟨by simp, by simp⟩
  | case3 a b =>
    intro c hc
    simp only [chunks5, List.mem_singleton] at hc
    subst hc; exact ⟨by simp, by simp⟩
  | case4 a b c =>
    intro c2 hc
    simp only [chunks5, List.mem_singleton] at hc
    subst hc; exact ⟨by simp, by simp⟩
  | case5 a b c d =>
    intro c2 hc
    simp only [chunks5, List.mem_singleton] at hc
    subst hc; exact ⟨by simp, by simp⟩
  | case6 a b c d e rest ih =>
    intro c2 hc
    simp only [chunks5, List.mem_cons] at hc
    rcases hc with hc | hc
    · subst hc; exact ⟨by simp, by simp⟩
    · exact ih c2 hc

theorem chunks5_ne_nil : ∀ (l : List α), l ≠ [] → chunks5 l ≠ [] := by
  intro l
  induction l using chunks5.induct with
  | case1 => intro h; exact absurd rfl h
  | case2 a => intro _; simp [chunks5]
  | case3 a b => intro _; simp [chunks5]
  | case4 a b c => intro _; simp [chunks5]
  | case5 a b c d => intro _; simp [chunks5]
  | case6 a b c d e rest ih => intro _; simp [chunks5]

theorem chunks5_dropLast :
    ∀ (l : List α), ∀ c ∈ (chunks5 l).dropLast, c.length = 5 := by
  intro l
  induction l using chunks5.induct with
  | case1 => intro c hc; cases hc
  | case2 a => intro c hc; cases hc
  | case3 a b => intro c hc; cases hc
  | case4 a b c => intro c2 hc; cases hc
  | case5 a b c d => intro c2 hc; cases hc
  | case6 a b c d e rest ih =>
    intro c2 hc
    by_cases hr : rest = []
    · subst hr
      cases hc
    · have hner : chunks5 rest ≠ [] := chunks5_ne_nil rest hr
      rw [show chunks5 (a :: b :: c :: d :: e :: rest)
            = [a, b, c, d, e] :: chunks5 rest from rfl,
          List.dropLast_cons_of_ne_nil hner] at hc
      rcases List.mem_cons.mp hc with h | h
      · subst h; rfl
      · exact ih c2 h

theorem sentOf_subset (env : CloseEnv) (pk : String)
    (signTx : Tx → Except Thrown Tx) :
    ∀ (bs : List Batch) (k : Nat), ∀ b ∈ sentOf env pk signTx k bs, b ∈ bs := by
  intro bs
  induction bs with
  | nil => intro k b hb; cases hb
  | cons x rest ih =>
    intro k b hb
    simp only [sentOf, List.mem_append] at hb
    rcases hb with hb | hb
    · cases hout : batchOutcome env pk signTx k x <;> rw [hout] at hb
      · simp only [List.mem_singleton] at hb
        subst hb
        exact List.mem_cons_self _ _
      · cases hb
      · cases hb
    · exact List.mem_cons_of_mem _ (ih (k + 1) b hb)

theorem sum_pos_iff_ne_nil (S : List Batch)
    (hpos : ∀ b ∈ S, 0 < b.mints.length) :
    (0 < ((S.map (fun b => b.mints.length)).sum) ↔ S ≠ []) := by
  cases S with
  | nil => simp
  | cons b rest =>
    simp only [List.map_cons, List.sum_cons]
    constructor
    · intro _
      exact List.cons_ne_nil _ _
    · intro _
      have := hpos b (List.mem_cons_self _ _)
      omega

theorem processBatches_char (env : CloseEnv) (pk : String)
    (signTx : Tx → Except Thrown Tx)
    (hbh : ∀ k, (env.getRecentBlockhash k).success = true ∧
        (env.getRecentBlockhash k).data.isSome = true) :
    ∀ (bs : List Batch) (k : Nat) (acc : LoopAcc),
    processBatches env pk signTx bs k acc = LoopOut.finished
      { closedCount := acc.closedCount
          + ((sentOf env pk signTx k bs).map (fun b => b.mints.length)).sum,
        lastSignature := lastOr acc.lastSignature (sigsOf env pk signTx k bs),
        lastError := lastOr acc.lastError (failsOf env pk signTx k bs),
        allClosedMints := acc.allClosedMints
          ++ (sentOf env pk signTx k bs).flatMap (fun b => b.mints),
        events := acc.events ++ loopEventsOf env pk signTx k bs,
        mintUpdates := acc.mintUpdates
          ++ (sentOf env pk signTx k bs).map (fun b => b.mints),
        reclaimUpdates := acc.reclaimUpdates
          ++ (sentOf env pk signTx k bs).map (fun b => b.mints.length) } := by
  intro bs
  induction bs with
  | nil =>
    intro k acc
    simp [processBatches, sentOf, failsOf, sigsOf, loopEventsOf, lastOr]
  | cons b rest ih =>
    intro k acc
    obtain ⟨hs, hd⟩ := hbh k
    obtain ⟨d, hdata⟩ := Option.isSome_iff_exists.mp hd
    have htx : batchTx env pk k b
        = { recentBlockhash := d.blockhash, feePayer := pk,
            instructions := b.instructions } := by
      simp [batchTx, bhStr, hdata]
    cases hsig : signTx { recentBlockhash := d.blockhash, feePayer := pk,
                          instructions := b.instructions } with
    | error e =>
      have hout : batchOutcome env pk signTx k b
          = BatchOutcome.threw (thrownMessage "Unknown error" e) := by
        simp [batchOutcome, htx, hsig]
      simp only [processBatches, hs, hdata, hsig]
      rw [ih]
      simp [sentOf, failsOf, sigsOf, loopEventsOf, hout, htx, hsig, lastOr_cons,
        List.append_assoc]
    | ok signed =>
      cases hsend : env.sendTransaction signed with
      | error e =>
        have hout : batchOutcome env pk signTx k b
            = BatchOutcome.threw (thrownMessage "Unknown error" e) := by
          simp [batchOutcome, htx, hsig, hsend]
        simp only [processBatches, hs, hdata, hsig, hsend]
        rw [ih]
        simp [sentOf, failsOf, sigsOf, loopEventsOf, hout, htx, hsig, lastOr_cons,
          List.append_assoc]
      | ok sr =>
        cases hsr : sr.success with
        | false =>
          have hout : batchOutcome env pk signTx k b = BatchOutcome.sendFailed sr.error := by
            simp [batchOutcome, htx, hsig, hsend, hsr]
          simp only [processBatches, hs, hdata, hsig, hsend, hsr, Bool.false_eq_true,
            if_false]
          rw [ih]
          simp [sentOf, failsOf, sigsOf, loopEventsOf, hout, htx, hsig, lastOr_cons,
            List.append_assoc]
        | true =>
          have hout : batchOutcome env pk signTx k b = BatchOutcome.sent sr.signature := by
            simp [batchOutcome, htx, hsig, hsend, hsr]
          simp only [processBatches, hs, hdata, hsig, hsend, hsr, if_true]
          rw [ih]
          simp [sentOf, failsOf, sigsOf, loopEventsOf, hout, htx, hsig, lastOr_cons,
            List.append_assoc, Nat.add_assoc]

theorem loopEventsOf_all_ok (env : CloseEnv) (pk : String)
    (signTx : Tx → Except Thrown Tx)
    (hsign : ∀ tx, ∃ tx2, signTx tx = Except.ok tx2) :
    ∀ (bs : List Batch) (k : Nat),
    loopEventsOf env pk signTx k bs
      = bs.flatMap (fun _ => [Ev.fetchBlockhash, Ev.sign, Ev.send]) := by
  intro bs
  induction bs with
  | nil => intro k; rfl
  | cons b rest ih =>
    intro k
    obtain ⟨tx2, hsig⟩ := hsign (batchTx env pk k b)
    simp [loopEventsOf, hsig, ih]

/-- C2: the simulation-valid tokens are partitioned into consecutive
batches of at most five (all full except possibly the last, order
preserved, every valid token in exactly one batch), and — when every
external operation succeeds — the batches are signed and submitted
strictly sequentially, one transaction per batch, with a fresh blockhash
fetched before each batch. -/
theorem closeAccounts_batching (env : CloseEnv) (pk : String)
    (signTx : Tx → Except Thrown Tx) (tokens : List TokenToClose) (d0 : BhData)
    (hne : tokens ≠ [])
    (hd0 : (env.getRecentBlockhash 0).data = some d0)
    (hbh : ∀ k, (env.getRecentBlockhash k).success = true ∧
        (env.getRecentBlockhash k).data.isSome = true)
    (hvalid : closeValid env pk d0.blockhash tokens ≠ [])
    (hsign : ∀ tx, ∃ tx2, signTx tx = Except.ok tx2)
    (hsend : ∀ tx, ∃ r, env.sendTransaction tx = Except.ok r ∧ r.success = true) :
    (chunks5 (closeValid env pk d0.blockhash tokens)).flatten
        = closeValid env pk d0.blockhash tokens ∧
    (∀ c ∈ chunks5 (closeValid env pk d0.blockhash tokens), c ≠ [] ∧ c.length ≤ 5) ∧
    (∀ c ∈ (chunks5 (closeValid env pk d0.blockhash tokens)).dropLast, c.length = 5) ∧
    mkBatches (closeValid env pk d0.blockhash tokens)
      = (chunks5 (closeValid env pk d0.blockhash tokens)).map (fun c =>
          { instructions := c.flatMap (fun r => r.instructions),
            mints := c.map (fun r => r.token.mint) }) ∧
    (closeAccounts env (some pk) (some signTx) tokens).events
      = Ev.fetchBlockhash :: closeSimEvents env pk d0.blockhash tokens
          ++ (mkBatches (closeValid env pk d0.blockhash tokens)).flatMap
              (fun _ => [Ev.fetchBlockhash, Ev.sign, Ev.send]) := by
  have hs0 := (hbh 0).1
  refine ⟨chunks5_flatten _, chunks5_mem _, chunks5_dropLast _, rfl, ?_⟩
  simp only [closeValid] at hvalid ⊢
  have hrun := processBatches_char env pk signTx hbh
      (mkBatches ((closeSimOutcomes env pk d0.blockhash tokens).filter
        (fun r => r.valid))) 1
      { closedCount := 0, lastSignature := none, lastError := none,
        allClosedMints := [],
        events := Ev.fetchBlockhash :: closeSimEvents env pk d0.blockhash tokens,
        mintUpdates := [], reclaimUpdates := [] }
  simp only [closeAccounts, hs0, hd0, if_neg hne, if_neg hvalid, hrun]
  rw [loopEventsOf_all_ok env pk signTx hsign]
  by_cases hcc : 0 < ((sentOf env pk signTx 1
      (mkBatches ((closeSimOutcomes env pk d0.blockhash tokens).filter
        (fun r => r.valid)))).map (fun b => b.mints.length)).sum
  · simp [hcc]
  · simp [hcc]

/-- Witness for the C2 theorem: one token in the all-success environment
produces one batch, traced as blockhash, sign, send after the initial
blockhash fetch and the simulation. -/
theorem closeAccounts_batching_witness :
    (closeAccounts envOk (some "P") (some signOk) [mkToken "m1"]).events
      = Ev.fetchBlockhash :: closeSimEvents envOk "P" "bh" [mkToken "m1"]
          ++ (mkBatches (closeValid envOk "P" "bh" [mkToken "m1"])).flatMap
              (fun _ => [Ev.fetchBlockhash, Ev.sign, Ev.send]) := by
  have h := closeAccounts_batching envOk "P" signOk [mkToken "m1"]
      { blockhash := "bh", lastValidBlockHeight := 1 }
      (by decide) rfl (fun k => ⟨rfl, rfl⟩) (by decide)
      (fun tx => ⟨tx, rfl⟩) (fun tx => ⟨_, rfl, rfl⟩)
  exact h.2.2.2.2

/-- C4: with the initial blockhash available and every per-token
simulation failing, `closeAccounts` returns the
`All accounts are frozen or invalid` failure with `closedCount = 0` and
`skippedCount` equal to the number of input tokens; the trace contains the
initial blockhash fetch and exactly one simulation per token — each
carrying that token's own instruction set — and nothing is signed or
sent. -/
theorem closeAccounts_simulation_filter (env : CloseEnv) (pk : String)
    (signTx : Tx → Except Thrown Tx) (tokens : List TokenToClose) (d0 : BhData)
    (hne : tokens ≠ [])
    (hs0 : (env.getRecentBlockhash 0).success = true)
    (hd0 : (env.getRecentBlockhash 0).data = some d0)
    (hallfail : ∀ t ∈ tokens,
      (env.simulateTransaction
        { recentBlockhash := d0.blockhash, feePayer := pk,
          instructions := buildIxs pk t }).success = false) :
    closeAccounts env (some pk) (some signTx) tokens
      = { result :=
            { success := false, signature := none,
              error := some "All accounts are frozen or invalid",
              closedCount := 0, skippedCount := some tokens.length,
              closedMints := none },
          events := Ev.fetchBlockhash :: closeSimEvents env pk d0.blockhash tokens,
          mintUpdates := [], reclaimUpdates := [] } ∧
    closeSimEvents env pk d0.blockhash tokens
      = tokens.map (fun t => Ev.simulate
          { recentBlockhash := d0.blockhash, feePayer := pk,
            instructions := buildIxs pk t }) ∧
    (∀ e ∈ (closeAccounts env (some pk) (some signTx) tokens).events,
      e ≠ Ev.sign ∧ e ≠ Ev.send) := by
  have hfil : (closeSimOutcomes env pk d0.blockhash tokens).filter (fun r => r.valid)
      = [] := by
    rw [List.filter_eq_nil_iff]
    intro r hr
    simp only [closeSimOutcomes, List.mem_map] at hr
    obtain ⟨t, ht, hrt⟩ := hr
    subst hrt
    simp [hallfail t ht]
  have hlen : (closeSimOutcomes env pk d0.blockhash tokens).length = tokens.length := by
    simp [closeSimOutcomes]
  have h1 : closeAccounts env (some pk) (some signTx) tokens
      = { result :=
            { success := false, signature := none,
              error := some "All accounts are frozen or invalid",
              closedCount := 0, skippedCount := some tokens.length,
              closedMints := none },
          events := Ev.fetchBlockhash :: closeSimEvents env pk d0.blockhash tokens,
          mintUpdates := [], reclaimUpdates := [] } := by
    simp only [closeAccounts, hs0, hd0, if_neg hne, hfil]
    simp [hlen]
  refine ⟨h1, rfl, ?_⟩
  intro e he
  rw [h1] at he
  simp only [List.mem_cons] at he
  rcases he with he | he
  · subst he
    exact ⟨by simp, by simp⟩
  · simp only [closeSimEvents, List.mem_map] at he
    obtain ⟨t, ht, hte⟩ := he
    subst hte
    exact ⟨by simp, by simp⟩

/-- Witness for the C4 theorem: one token whose simulation fails yields
the frozen-accounts failure with one skipped account and no signing. -/
theorem closeAccounts_simulation_filter_witness :
    closeAccounts envSimFail (some "P") (some signOk) [mkToken "m1"]
      = { result :=
            { success := false, signature := none,
              error := some "All accounts are frozen or invalid",
              closedCount := 0, skippedCount := some 1, closedMints := none },
          events := Ev.fetchBlockhash :: closeSimEvents envSimFail "P" "bh" [mkToken "m1"],
          mintUpdates := [], reclaimUpdates := [] } := by
  have h := (closeAccounts_simulation_filter envSimFail "P" signOk [mkToken "m1"]
      { blockhash := "bh", lastValidBlockHeight := 1 }
      (by decide) rfl rfl (fun t ht => rfl)).1
  exact h

/-- C7 counterexample: six valid tokens make two batches; the first batch
is submitted successfully (witnessed by the recorded `setClosedMints`
update) but the second batch's blockhash fetch fails, and the run returns
`success = false` with `closedCount = 0` and the blockhash error — not
`success = true` with the successful batch counted, as the claim requires
when at least one batch was submitted successfully. -/
theorem closeAccounts_batch_counterexample :
    (closeAccounts envBhDrop (some "P") (some signOk) tokensSix).mintUpdates
      = [["m1", "m2", "m3", "m4", "m5"]] ∧
    (closeAccounts envBhDrop (some "P") (some signOk) tokensSix).result.success
      = false ∧
    (closeAccounts envBhDrop (some "P") (some signOk) tokensSix).result.closedCount
      = 0 ∧
    (closeAccounts envBhDrop (some "P") (some signOk) tokensSix).result.error
      = some "rpc down" := by
  decide

/-- C7 (amended): provided every per-batch blockhash fetch succeeds, a
batch whose signing or submission fails is skipped and the loop proceeds
to the next batch; the run succeeds exactly when at least one batch was
submitted successfully, `closedCount` sums exactly the successful batches
and `closedMints` concatenates exactly their mints, and otherwise the
result is a failure with `closedCount = 0` whose error is the last batch
error (with a fixed fallback when no error string was recorded).  A failed
per-batch blockhash fetch instead aborts the whole loop with
`success = false` and `closedCount = 0` regardless of earlier successes
(see the counterexample). -/
theorem closeAccounts_batch_results (env : CloseEnv) (pk : String)
    (signTx : Tx → Except Thrown Tx) (tokens : List TokenToClose) (d0 : BhData)
    (hne : tokens ≠ [])
    (hd0 : (env.getRecentBlockhash 0).data = some d0)
    (hbh : ∀ k, (env.getRecentBlockhash k).success = true ∧
        (env.getRecentBlockhash k).data.isSome = true)
    (hvalid : closeValid env pk d0.blockhash tokens ≠ []) :
    ((closeAccounts env (some pk) (some signTx) tokens).result.success = true
      ↔ sentOf env pk signTx 1
          (mkBatches (closeValid env pk d0.blockhash tokens)) ≠ []) ∧
    (closeAccounts env (some pk) (some signTx) tokens).result.closedCount
      = ((sentOf env pk signTx 1
          (mkBatches (closeValid env pk d0.blockhash tokens))).map
          (fun b => b.mints.length)).sum ∧
    (sentOf env pk signTx 1 (mkBatches (closeValid env pk d0.blockhash tokens)) ≠ [] →
      (closeAccounts env (some pk) (some signTx) tokens).result.closedMints
        = some ((sentOf env pk signTx 1
            (mkBatches (closeValid env pk d0.blockhash tokens))).flatMap
            (fun b => b.mints))) ∧
    (sentOf env pk signTx 1 (mkBatches (closeValid env pk d0.blockhash tokens)) = [] →
      (closeAccounts env (some pk) (some signTx) tokens).result.success = false ∧
      (closeAccounts env (some pk) (some signTx) tokens).result.closedCount = 0 ∧
      (closeAccounts env (some pk) (some signTx) tokens).result.error
        = some (jsOr (lastOr none (failsOf env pk signTx 1
            (mkBatches (closeValid env pk d0.blockhash tokens))))
            "Failed to close accounts")) := by
  have hs0 := (hbh 0).1
  simp only [closeValid] at hvalid ⊢
  have hrun := processBatches_char env pk signTx hbh
      (mkBatches ((closeSimOutcomes env pk d0.blockhash tokens).filter
        (fun r => r.valid))) 1
      { closedCount := 0, lastSignature := none, lastError := none,
        allClosedMints := [],
        events := Ev.fetchBlockhash :: closeSimEvents env pk d0.blockhash tokens,
        mintUpdates := [], reclaimUpdates := [] }
  have hpos : ∀ b ∈ sentOf env pk signTx 1
      (mkBatches ((closeSimOutcomes env pk d0.blockhash tokens).filter
        (fun r => r.valid))), 0 < b.mints.length := by
    intro b hb
    have hbB := sentOf_subset env pk signTx _ 1 b hb
    simp only [mkBatches, List.mem_map] at hbB
    obtain ⟨c, hc, hcb⟩ := hbB
    subst hcb
    have hcne := (chunks5_mem _ c hc).1
    simp only [List.length_map]
    exact List.length_pos.mpr hcne
  have hiff := sum_pos_iff_ne_nil _ hpos
  by_cases hS : sentOf env pk signTx 1
      (mkBatches ((closeSimOutcomes env pk d0.blockhash tokens).filter
        (fun r => r.valid))) = []
  · have hz : ¬ 0 < ((sentOf env pk signTx 1
        (mkBatches ((closeSimOutcomes env pk d0.blockhash tokens).filter
          (fun r => r.valid)))).map (fun b => b.mints.length)).sum := by
      simp [hS]
    refine ⟨?_, ?_, ?_, ?_⟩
    · simp only [closeAccounts, hs0, hd0, if_neg hne, if_neg hvalid, hrun]
      simp [hz, hS]
    · simp only [closeAccounts, hs0, hd0, if_neg hne, if_neg hvalid, hrun]
      simp [hz, hS]
    · intro hc
      exact absurd hS hc
    · intro _
      simp only [closeAccounts, hs0, hd0, if_neg hne, if_neg hvalid, hrun]
      simp [hz]
  · have hp2 : 0 < ((sentOf env pk signTx 1
        (mkBatches ((closeSimOutcomes env pk d0.blockhash tokens).filter
          (fun r => r.valid)))).map (fun b => b.mints.length)).sum :=
      hiff.mpr hS
    refine ⟨?_, ?_, ?_, ?_⟩
    · simp only [closeAccounts, hs0, hd0, if_neg hne, if_neg hvalid, hrun]
      simp [hp2, hS]
    · simp only [closeAccounts, hs0, hd0, if_neg hne, if_neg hvalid, hrun]
      simp [hp2]
    · intro _
      simp only [closeAccounts, hs0, hd0, if_neg hne, if_neg hvalid, hrun]
      simp [hp2]
    · intro hc
      exact absurd hc hS

/-- Witness for the amended C7 theorem: in the all-success environment
with one token, `closedCount` equals the summed size of the (single)
successfully sent batch. -/
theorem closeAccounts_batch_results_witness :
    (closeAccounts envOk (some "P") (some signOk) [mkToken "m1"]).result.closedCount
      = ((sentOf envOk "P" signOk 1
          (mkBatches (closeValid envOk "P" "bh" [mkToken "m1"]))).map
          (fun b => b.mints.length)).sum := by
  have h := closeAccounts_batch_results envOk "P" signOk [mkToken "m1"]
      { blockhash := "bh", lastValidBlockHeight := 1 }
      (by decide) rfl (fun k => ⟨rfl, rfl⟩) (by decide)
  exact h.2.1
